import Mathlib

/-!
# Verification of the EphReader repository

Shallow embedding of the `.eph` ephemeris reader (`tools/eph_reader.py`),
the SPICE-to-`.eph` encoder (`tools/spice2eph.py`), the raw DAF/SPK header
scanner (`tools/raw_spk_reader.py`) and the Chiron orbit integrator
(`tools/integrate_chiron_hybrid.py` / `tools/integrate_chiron_orbit.py`),
together with theorems settling the specification claims about them.

Floating-point values are modelled as exact rationals (`ℚ`) where the code
only uses field operations and comparisons, and as reals (`ℝ`) where the
code uses `sqrt`, `sin` or `cos`.
-/

namespace Eph

/-- `EphReader._chebyshev_eval` (eph_reader.py, lines 196-240): Clenshaw
recurrence.  The Python backward loop over indices `n-1 … 1` is the left
fold over the reversed tail of the coefficient list, carrying `(b₁, b₂)`;
the early returns for empty / single-coefficient lists coincide with the
fold on an empty tail. -/
def chebyshev_eval (coeffs : List ℚ) (t : ℚ) : ℚ :=
  match coeffs with
  | [] => 0
  | c0 :: rest =>
    let b := rest.reverse.foldl (fun b c => (c + 2 * t * b.1 - b.2, b.1)) ((0 : ℚ), (0 : ℚ))
    c0 + t * b.1 - b.2

/-- Loop body of `EphReader._find_interval` (eph_reader.py, lines 156-167).
Python keeps an inclusive right pointer `right` that may reach `-1`; we
represent it as `ro = right + 1 : ℕ`, so the loop guard `left <= right`
becomes `left < ro`, the midpoint `(left + right) // 2` becomes
`(left + ro - 1) / 2`, and the update `right = mid - 1` becomes `ro = mid`. -/
def findAux (intervals : List (ℚ × ℚ)) (jd : ℚ) (left ro : ℕ) : Option ℕ :=
  if left < ro then
    if jd < (intervals.getD ((left + ro - 1) / 2) (0, 0)).1 then
      findAux intervals jd left ((left + ro - 1) / 2)
    else if (intervals.getD ((left + ro - 1) / 2) (0, 0)).2 < jd then
      findAux intervals jd ((left + ro - 1) / 2 + 1) ro
    else some ((left + ro - 1) / 2)
  else none
termination_by ro - left
decreasing_by
· omega
· omega

/-- `EphReader._find_interval` (eph_reader.py, lines 140-172): binary search
starting from `left = 0`, `right = len(intervals) - 1`.  Returns `none` where
Python raises `ValueError` ("JD outside ephemeris range"). -/
def find_interval (intervals : List (ℚ × ℚ)) (jd : ℚ) : Option ℕ :=
  findAux intervals jd 0 intervals.length

/-- One entry of `EphReader.bodies` (eph_reader.py, lines 124-127): the
name bytes and the `data_offset` read from the body table. -/
structure Body where
  name : List ℕ
  dataOffset : ℕ
deriving DecidableEq

/-- `EphReader.header` (eph_reader.py, lines 103-111). -/
structure Header where
  version : ℕ
  numBodies : ℕ
  numIntervals : ℕ
  intervalDays : ℚ
  startJd : ℚ
  endJd : ℚ
  coeffDegree : ℕ
deriving DecidableEq

/-- The in-memory state of an open `EphReader`: header, body table
(`body_id ↦ entry` dictionary as an association list), interval index, and
the file's coefficient area modelled as the `f64` value stored at each byte
offset (all reads the reader performs are 8-byte-aligned doubles). -/
structure Reader where
  header : Header
  bodies : List (Int × Body)
  intervals : List (ℚ × ℚ)
  data : ℕ → ℚ

/-- Dictionary lookup `self.bodies[body_id]` / `body_id not in self.bodies`. -/
def lookupBody : List (Int × Body) → Int → Option Body
  | [], _ => none
  | (k, b) :: rest, bid => if k = bid then some b else lookupBody rest bid

/-- Byte size the reader uses for one coefficient block
(eph_reader.py, line 183): `coeff_size = 3 * degree * 8`. -/
def readerCoeffByteSize (degree : ℕ) : ℕ := 3 * degree * 8

/-- File offset the reader seeks to for `(body, interval_idx)`
(eph_reader.py, line 184): `body['data_offset'] + interval_idx * coeff_size`. -/
def readerCoeffOffset (dataOffset intervalIdx degree : ℕ) : ℕ :=
  dataOffset + intervalIdx * readerCoeffByteSize degree

/-- `EphReader._read_coefficients` (eph_reader.py, lines 174-194): seek to
`readerCoeffOffset`, read `3 * degree` doubles, reshape to `(3, degree)`
row-major, so entry `(c, j)` is the double at byte
`offset + (c * degree + j) * 8`. -/
def read_coefficients (r : Reader) (bodyId : Int) (intervalIdx : ℕ) :
    Option (List (List ℚ)) :=
  match lookupBody r.bodies bodyId with
  | none => none
  | some body =>
    let degree := r.header.coeffDegree
    let offset := readerCoeffOffset body.dataOffset intervalIdx degree
    some ((List.range 3).map fun c =>
      (List.range degree).map fun j => r.data (offset + (c * degree + j) * 8))

/-- Error kinds of `EphReader.compute`: `_find_interval` raises
"JD outside ephemeris range", `_read_coefficients` raises "Body not found". -/
inductive EphError where
  | outOfRange
  | unknownBody
deriving DecidableEq

/-- `EphReader.compute` (eph_reader.py, lines 242-304): find the interval,
normalize time to `[-1, 1]`, read the coefficient rows, evaluate the three
Chebyshev series, and return the dictionary `{'pos': [x, y, z]}` (modelled
as an association list of key/value pairs, exactly the keys the code puts
in the returned dict). -/
def compute (r : Reader) (bodyId : Int) (jd : ℚ) :
    Except EphError (List (String × List ℚ)) :=
  match find_interval r.intervals jd with
  | none => .error .outOfRange
  | some idx =>
    let p := r.intervals.getD idx (0, 0)
    let t := 2 * (jd - p.1) / (p.2 - p.1) - 1
    match read_coefficients r bodyId idx with
    | none => .error .unknownBody
    | some coeffs =>
      .ok [("pos", [chebyshev_eval (coeffs.getD 0 []) t,
                    chebyshev_eval (coeffs.getD 1 []) t,
                    chebyshev_eval (coeffs.getD 2 []) t])]

/-- The interval index is contiguous: each interval's `jd_end` equals the
next interval's `jd_start`. -/
def Contig (l : List (ℚ × ℚ)) : Prop :=
  ∀ k, k + 1 < l.length → (l.getD k (0, 0)).2 = (l.getD (k + 1) (0, 0)).1

/-- Each interval is ordered: `jd_start ≤ jd_end`. -/
def Ordered (l : List (ℚ × ℚ)) : Prop :=
  ∀ k, k < l.length → (l.getD k (0, 0)).1 ≤ (l.getD k (0, 0)).2

end Eph

namespace Spice2Eph

/-- One `(body, interval)` coefficient block handed to
`SPICEConverter._write_eph_file`: the `x`, `y`, `z` coefficient lists
produced by `_extract_coefficients`. -/
structure CoeffBlock where
  x : List ℚ
  y : List ℚ
  z : List ℚ

/-- spice2eph.py line 83. -/
def HEADER_SIZE : ℕ := 512

/-- spice2eph.py line 84: `int32(4) + char[24](24) + uint64(8) = 36 bytes`. -/
def BODY_ENTRY_SIZE : ℕ := 36

/-- spice2eph.py line 85. -/
def INTERVAL_ENTRY_SIZE : ℕ := 16

/-- spice2eph.py lines 263-265: `coeffs_per_component = coeff_degree + 1`,
`coeffs_per_interval = coeffs_per_component * 3`,
`bytes_per_interval = coeffs_per_interval * 8`. -/
def bytesPerInterval (coeffDegree : ℕ) : ℕ := ((coeffDegree + 1) * 3) * 8

/-- Input of `SPICEConverter._write_eph_file` (spice2eph.py lines 237-297):
the `all_coeffs` dictionary (body id ↦ per-interval blocks, as an
association list), the interval list, and the header's coefficient degree. -/
structure EphInput where
  allCoeffs : List (Int × List CoeffBlock)
  intervals : List (ℚ × ℚ)
  coeffDegree : ℕ

def numBodies (inp : EphInput) : ℕ := inp.allCoeffs.length

def numIntervals (inp : EphInput) : ℕ := inp.intervals.length

/-- spice2eph.py line 267: `data_start = HEADER_SIZE + body_table_size +
interval_index_size`. -/
def dataStart (inp : EphInput) : ℕ :=
  HEADER_SIZE + numBodies inp * BODY_ENTRY_SIZE + numIntervals inp * INTERVAL_ENTRY_SIZE

/-- Python `sorted(all_coeffs.keys())` (spice2eph.py lines 270, 286): the
writer emits bodies in ascending body-id order (stable sort of the
association list on its keys). -/
def sortedBodies (inp : EphInput) : List (Int × List CoeffBlock) :=
  List.insertionSort (fun a b => a.1 ≤ b.1) inp.allCoeffs

/-- spice2eph.py lines 270-278: the body-table entries in write order; entry
`i` holds `data_offset = data_start + i * num_intervals * bytes_per_interval`
(line 275). -/
def bodyEntries (inp : EphInput) : List (Int × ℕ) :=
  (sortedBodies inp).enum.map fun ie =>
    (ie.2.1, dataStart inp + ie.1 * (numIntervals inp * bytesPerInterval inp.coeffDegree))

/-- spice2eph.py line 272: `body_name.encode('ascii')[:24].ljust(24, b'\x00')`,
on the name's bytes. -/
def nameField (name : List ℕ) : List ℕ :=
  name.take 24 ++ List.replicate (24 - (name.take 24).length) 0

/-- Byte sizes of the three `struct.pack` writes for one block
(spice2eph.py lines 291-297): `len(coeffs['x'])` doubles each. -/
def blockChunks (b : CoeffBlock) : List ℕ :=
  [8 * b.x.length, 8 * b.y.length, 8 * b.z.length]

/-- The sequence of byte-chunk sizes `_write_eph_file` writes: the padded
512-byte header (line 257), one 36-byte entry per body, one 16-byte entry
per interval, then for each body in sorted order and each of its blocks the
x/y/z coefficient writes. -/
def writeChunks (inp : EphInput) : List ℕ :=
  HEADER_SIZE :: ((sortedBodies inp).map fun _ => BODY_ENTRY_SIZE)
    ++ (inp.intervals.map fun _ => INTERVAL_ENTRY_SIZE)
    ++ ((sortedBodies inp).map fun bc => (bc.2.map blockChunks).flatten).flatten

/-- Total number of bytes written to the output file. -/
def fileSize (inp : EphInput) : ℕ := (writeChunks inp).sum

end Spice2Eph

namespace RawSpk

/-- `struct.unpack('<i', ...)`: interpret a 32-bit word as a signed int. -/
def toInt32 (n : ℕ) : Int := if n < 2 ^ 31 then (n : Int) else (n : Int) - 2 ^ 32

/-- Little-endian 32-bit word from the four file bytes at `off`. -/
def leWord (byte : ℕ → ℕ) (off : ℕ) : ℕ :=
  byte off % 256 + 256 * (byte (off + 1) % 256) + 65536 * (byte (off + 2) % 256)
    + 16777216 * (byte (off + 3) % 256)

/-- Big-endian 32-bit word from the four file bytes at `off`. -/
def beWord (byte : ℕ → ℕ) (off : ℕ) : ℕ :=
  byte (off + 3) % 256 + 256 * (byte (off + 2) % 256) + 65536 * (byte (off + 1) % 256)
    + 16777216 * (byte off % 256)

def leInt32 (byte : ℕ → ℕ) (off : ℕ) : Int := toInt32 (leWord byte off)

def beInt32 (byte : ℕ → ℕ) (off : ℕ) : Int := toInt32 (beWord byte off)

/-- `read_chebyshev_intervals_raw` endianness detection
(raw_spk_reader.py lines 49-66): read ND at byte offset 8 and NI at byte
offset 12 as little-endian signed ints (`nd_offset = 8`); if `nd > 100 or
ni > 100` decode the same two fields again as big-endian.  Returns
(big-endian?, nd, ni). -/
def detectEndianness (byte : ℕ → ℕ) : Bool × Int × Int :=
  if 100 < leInt32 byte 8 ∨ 100 < leInt32 byte 12 then
    (true, beInt32 byte 8, beInt32 byte 12)
  else
    (false, leInt32 byte 8, leInt32 byte 12)

/-- Modelled from the claim's words only (for comparison with the code's
`detectEndianness`): the same detection but reading the integer header
fields at byte offsets 88 and 92, as the claim states. -/
def detectEndiannessAt88 (byte : ℕ → ℕ) : Bool × Int × Int :=
  if 100 < leInt32 byte 88 ∨ 100 < leInt32 byte 92 then
    (true, beInt32 byte 88, beInt32 byte 92)
  else
    (false, leInt32 byte 88, leInt32 byte 92)

/-- A concrete file record: ND = 2 at offset 8, NI = 6 at offset 12
(the standard SPK values, little-endian), and an unrelated byte 200 at
offset 88. -/
def c5bytes : ℕ → ℕ := fun off =>
  if off = 8 then 2 else if off = 12 then 6 else if off = 88 then 200 else 0

end RawSpk

namespace Refit

/-- spice2eph.py line 211: `1 AU = 149597870.7 km`. -/
noncomputable def AU_KM : ℝ := 149597870.7

/-- `SPICEConverter._extract_coefficients` (spice2eph.py lines 183-184)
hardcodes `degree = 7`, `n_samples = degree + 1`. -/
def nSamples : ℕ := 8

/-- spice2eph.py line 187: Chebyshev root nodes
`cos(π(2k+1)/(2N))` in `[-1, 1]`. -/
noncomputable def chebNode (N k : ℕ) : ℝ :=
  Real.cos (Real.pi * (2 * (k : ℝ) + 1) / (2 * (N : ℝ)))

/-- spice2eph.py lines 190-192: sample times
`jd_mid + jd_half * nodes`. -/
noncomputable def jdSample (jdStart jdEnd : ℝ) (k : ℕ) : ℝ :=
  (jdStart + jdEnd) / 2 + (jdEnd - jdStart) / 2 * chebNode nSamples k

/-- spice2eph.py lines 196-206: one `spice.spkgps` sample;  on an exception
the code appends `[0.0, 0.0, 0.0]` for that sample, so a failed call
(`none`) degrades to the zero position. -/
noncomputable def samplePos (sample : ℝ → Option (Fin 3 → ℝ)) (t : ℝ) : Fin 3 → ℝ :=
  (sample t).getD (fun _ => 0)

/-- Modelled from the spec: `numpy.polynomial.chebyshev.chebfit` called with
`N = degree + 1` values at the `N` Chebyshev root nodes (spice2eph.py
lines 226-235) is exact interpolation there; the spec's C1 kernel gives its
discrete-cosine-transform closed form
`c_j = (2 - [j = 0]) / N · Σ_k y_k · cos(π j (2k+1)/(2N))`. -/
noncomputable def chebfit (N : ℕ) (vals : ℕ → ℝ) (j : ℕ) : ℝ :=
  ((if j = 0 then 1 else 2) / (N : ℝ)) *
    ∑ k in Finset.range N, vals k * Real.cos (Real.pi * (j : ℝ) * (2 * (k : ℝ) + 1) / (2 * (N : ℝ)))

/-- One `(body, interval)` block of `_extract_coefficients`
(spice2eph.py lines 181-222): sample the 8 node times (zero on failure),
convert km → AU, fit each Cartesian component. -/
noncomputable def extractBlock (sample : ℝ → Option (Fin 3 → ℝ)) (jdStart jdEnd : ℝ) :
    Fin 3 → ℕ → ℝ :=
  fun c j => chebfit nSamples (fun k => samplePos sample (jdSample jdStart jdEnd k) c / AU_KM) j

/-- `SPICEConverter._extract_coefficients` over its interval list: one block
per interval, no abort, no failure counting. -/
noncomputable def extract_coefficients (sample : ℝ → Option (Fin 3 → ℝ))
    (intervals : List (ℝ × ℝ)) : List (Fin 3 → ℕ → ℝ) :=
  intervals.map fun p => extractBlock sample p.1 p.2

/-- A concrete sample source: succeeds (constant position 1 km) for times
`≥ 1`, fails for earlier times. -/
noncomputable def c4sample : ℝ → Option (Fin 3 → ℝ) := fun t =>
  if 1 ≤ t then some (fun _ => 1) else none

end Refit

namespace Integrator

/-- integrate_chiron_hybrid.py line 127. -/
noncomputable def GM_SUN : ℝ := 1.32712440018e20

/-- integrate_chiron_hybrid.py line 128. -/
noncomputable def C_LIGHT : ℝ := 299792458.0

/-- Cartesian 3-vector. -/
def Vec3 : Type := Fin 3 → ℝ

/-- `np.dot` on 3-vectors. -/
noncomputable def dot (u v : Vec3) : ℝ := u 0 * v 0 + u 1 * v 1 + u 2 * v 2

/-- `np.linalg.norm` on 3-vectors. -/
noncomputable def norm3 (u : Vec3) : ℝ := Real.sqrt (dot u u)

/-- `compute_acceleration` lines 447-448: `a_sun = -GM_SUN / r**3 * pos`. -/
noncomputable def a_sun (pos : Vec3) : Vec3 :=
  fun i => -GM_SUN / norm3 pos ^ 3 * pos i

/-- `compute_acceleration` lines 450-456 as written in the code:
`r_dot = np.dot(pos, vel) / r`, then
`GM_SUN / (r**3 * C_LIGHT**2) * ((4*GM_SUN/r - v2)*pos + 4*r_dot*vel)`. -/
noncomputable def schwarzschild (pos vel : Vec3) : Vec3 :=
  fun i => GM_SUN / (norm3 pos ^ 3 * C_LIGHT ^ 2) *
    ((4 * GM_SUN / norm3 pos - dot vel vel) * pos i
      + 4 * (dot pos vel / norm3 pos) * vel i)

/-- Modelled from the spec (§4.7, item 3) and from the function's own
docstring (integrate_chiron_hybrid.py line 397), for comparison with
`schwarzschild`: `a_rel = (GM☉/(|r|³c²))·((4·GM☉/|r| − v²)·r + 4·(r·v)·v)`,
with the velocity term scaled by the full dot product `r·v`. -/
noncomputable def schwarzschild_spec (pos vel : Vec3) : Vec3 :=
  fun i => GM_SUN / (norm3 pos ^ 3 * C_LIGHT ^ 2) *
    ((4 * GM_SUN / norm3 pos - dot vel vel) * pos i
      + 4 * dot pos vel * vel i)

/-- `compute_acceleration` lines 460-476: one planet's perturbation
`gm_planet * (delta/|delta|³ - planet_pos/|planet_pos|³)` (direct plus
indirect term). -/
noncomputable def planetPerturb (pos planetPos : Vec3) (gm : ℝ) : Vec3 :=
  fun i => gm * ((planetPos i - pos i) / norm3 (fun j => planetPos j - pos j) ^ 3
    - planetPos i / norm3 planetPos ^ 3)

/-- `compute_acceleration` (integrate_chiron_hybrid.py lines 444-478):
`a_total = a_sun + schwarzschild`, then for each planet whose provider call
succeeds, add its perturbation; a provider failure skips that planet. -/
noncomputable def compute_acceleration (pos vel : Vec3)
    (planets : List (ℝ × Option Vec3)) : Vec3 :=
  planets.foldl
    (fun acc p => match p.2 with
      | none => acc
      | some pp => fun i => acc i + planetPerturb pos pp p.1 i)
    (fun i => a_sun pos i + schwarzschild pos vel i)

/-- The Kepler-equation loop body shared by `elements_to_cartesian` in
integrate_chiron_hybrid.py (lines 321-323) and integrate_chiron_orbit.py
(lines 95-97): `E = ma_rad + e * np.sin(E)`. -/
noncomputable def keplerStep (e M E : ℝ) : ℝ := M + e * Real.sin E

/-- The full Kepler solve of both `elements_to_cartesian` implementations:
`E = ma_rad` then `for _ in range(10): E = ma_rad + e*np.sin(E)` — ten
fixed-point updates, no convergence test. -/
noncomputable def solveKepler (e M : ℝ) : ℝ := (keplerStep e M)^[10] M

/-- Modelled from the spec ("Newton iteration, ≤ 10 iterations, convergence
≤ 10⁻¹²"), for comparison with `keplerStep`: one Newton-Raphson update for
`f(E) = E - e·sin E - M`. -/
noncomputable def newtonStep (e M E : ℝ) : ℝ :=
  E - (E - e * Real.sin E - M) / (1 - e * Real.cos E)

/-- Concrete integrator state used to separate the two Schwarzschild forms:
position `(2, 0, 0)`, velocity `(1, 0, 0)`. -/
noncomputable def c3pos : Vec3 := fun i => if i = 0 then 2 else 0

noncomputable def c3vel : Vec3 := fun i => if i = 0 then 1 else 0

end Integrator

namespace Eph

/-- A concrete open reader with `coeff_degree = 7` (the degree spice2eph.py
writes), two intervals, and one body whose data starts at byte 1000. -/
def c1reader : Reader :=
  ⟨⟨1, 1, 2, 16, 0, 32, 7⟩, [(1, ⟨[], 1000⟩)], [(0, 16), (16, 32)], fun _ => 0⟩

/-- A concrete open reader with a single interval `[0, 1]` and one body
(id 1, data at byte 0), over a zero-filled coefficient area. -/
def oneIntervalReader : Reader :=
  ⟨⟨1, 1, 1, 1, 0, 1, 1⟩, [(1, ⟨[], 0⟩)], [(0, 1)], fun _ => 0⟩

end Eph

namespace Spice2Eph

/-- A concrete writer input: two bodies (ids 2 and 1, given unsorted), one
interval, degree 0 (one coefficient per component). -/
def c6input : EphInput :=
  ⟨[(2, [⟨[5], [6], [7]⟩]), (1, [⟨[1], [2], [3]⟩])], [(0, 1)], 0⟩

end Spice2Eph

namespace Eph

lemma findAux_sound (l : List (ℚ × ℚ)) (jd : ℚ) (n : ℕ) :
    ∀ left ro, ro - left ≤ n → ro ≤ l.length → ∀ i, findAux l jd left ro = some i →
      i < l.length ∧ (l.getD i (0, 0)).1 ≤ jd ∧ jd ≤ (l.getD i (0, 0)).2 := by
  induction n with
  | zero =>
    intro left ro hn hro i heq
    rw [findAux] at heq
    have hg : ¬ left < ro := by omega
    rw [if_neg hg] at heq
    cases heq
  | succ n ih =>
    intro left ro hn hro i heq
    rw [findAux] at heq
    by_cases hg : left < ro
    · rw [if_pos hg] at heq
      by_cases h1 : jd < (l.getD ((left + ro - 1) / 2) (0, 0)).1
      · rw [if_pos h1] at heq
        exact ih left ((left + ro - 1) / 2) (by omega) (by omega) i heq
      · rw [if_neg h1] at heq
        by_cases h2 : (l.getD ((left + ro - 1) / 2) (0, 0)).2 < jd
        · rw [if_pos h2] at heq
          exact ih ((left + ro - 1) / 2 + 1) ro (by omega) hro i heq
        · rw [if_neg h2] at heq
          obtain rfl : (left + ro - 1) / 2 = i := by exact Option.some.inj heq
          exact ⟨by omega, le_of_not_lt h1, le_of_not_lt h2⟩
    · rw [if_neg hg] at heq
      cases heq

lemma findAux_isSome (l : List (ℚ × ℚ)) (jd : ℚ) (hc : Contig l) (n : ℕ) :
    ∀ left ro, ro - left ≤ n → ro ≤ l.length → left < ro →
      (l.getD left (0, 0)).1 ≤ jd → jd ≤ (l.getD (ro - 1) (0, 0)).2 →
      ∃ i, findAux l jd left ro = some i := by
  induction n with
  | zero => intro left ro hn _ hg _ _; omega
  | succ n ih =>
    intro left ro hn hro hg hlo hhi
    rw [findAux, if_pos hg]
    by_cases h1 : jd < (l.getD ((left + ro - 1) / 2) (0, 0)).1
    · rw [if_pos h1]
      have hml : left < (left + ro - 1) / 2 := by
        rcases Nat.lt_or_ge left ((left + ro - 1) / 2) with h | h
        · exact h
        · exfalso
          have : (left + ro - 1) / 2 = left := by omega
          rw [this] at h1
          exact absurd hlo (not_le_of_lt h1)
      have hcont : (l.getD ((left + ro - 1) / 2 - 1) (0, 0)).2
          = (l.getD ((left + ro - 1) / 2) (0, 0)).1 := by
        have := hc ((left + ro - 1) / 2 - 1) (by omega)
        have heq : (left + ro - 1) / 2 - 1 + 1 = (left + ro - 1) / 2 := by omega
        rw [heq] at this
        exact this
      exact ih left ((left + ro - 1) / 2) (by omega) (by omega) hml hlo
        (by rw [hcont]; exact le_of_lt h1)
    · rw [if_neg h1]
      by_cases h2 : (l.getD ((left + ro - 1) / 2) (0, 0)).2 < jd
      · rw [if_pos h2]
        have hmr : (left + ro - 1) / 2 + 1 < ro := by
          rcases Nat.lt_or_ge ((left + ro - 1) / 2 + 1) ro with h | h
          · exact h
          · exfalso
            have : (left + ro - 1) / 2 = ro - 1 := by omega
            rw [this] at h2
            exact absurd hhi (not_le_of_lt h2)
        have hcont : (l.getD ((left + ro - 1) / 2) (0, 0)).2
            = (l.getD ((left + ro - 1) / 2 + 1) (0, 0)).1 :=
          hc ((left + ro - 1) / 2) (by omega)
        exact ih ((left + ro - 1) / 2 + 1) ro (by omega) hro hmr
          (by rw [← hcont]; exact le_of_lt h2) hhi
      · rw [if_neg h2]
        exact ⟨(left + ro - 1) / 2, rfl⟩

lemma findAux_none (l : List (ℚ × ℚ)) (jd : ℚ)
    (h : ∀ k, k < l.length → jd < (l.getD k (0, 0)).1 ∨ (l.getD k (0, 0)).2 < jd) (n : ℕ) :
    ∀ left ro, ro - left ≤ n → ro ≤ l.length → findAux l jd left ro = none := by
  induction n with
  | zero =>
    intro left ro hn hro
    rw [findAux]
    have hg : ¬ left < ro := by omega
    rw [if_neg hg]
  | succ n ih =>
    intro left ro hn hro
    rw [findAux]
    by_cases hg : left < ro
    · rw [if_pos hg]
      rcases h ((left + ro - 1) / 2) (by omega) with h1 | h2
      · rw [if_pos h1]
        exact ih left ((left + ro - 1) / 2) (by omega) (by omega)
      · by_cases h1 : jd < (l.getD ((left + ro - 1) / 2) (0, 0)).1
        · rw [if_pos h1]
          exact ih left ((left + ro - 1) / 2) (by omega) (by omega)
        · rw [if_neg h1, if_pos h2]
          exact ih ((left + ro - 1) / 2 + 1) ro (by omega) hro
    · rw [if_neg hg]

/-- With a contiguous ordered index, starts are bounded below by the first start. -/
lemma first_start_le (l : List (ℚ × ℚ)) (hc : Contig l) (ho : Ordered l) :
    ∀ k, k < l.length → (l.getD 0 (0, 0)).1 ≤ (l.getD k (0, 0)).1 := by
  intro k
  induction k with
  | zero => intro _; exact le_refl _
  | succ k ih =>
    intro hk
    calc (l.getD 0 (0, 0)).1 ≤ (l.getD k (0, 0)).1 := ih (by omega)
      _ ≤ (l.getD k (0, 0)).2 := ho k (by omega)
      _ = (l.getD (k + 1) (0, 0)).1 := hc k hk

/-- With a contiguous ordered index, ends are bounded above by the last end. -/
lemma end_le_last (l : List (ℚ × ℚ)) (hc : Contig l) (ho : Ordered l) :
    ∀ k, k < l.length → (l.getD k (0, 0)).2 ≤ (l.getD (l.length - 1) (0, 0)).2 := by
  have main : ∀ d k, k < l.length → l.length - 1 - k ≤ d →
      (l.getD k (0, 0)).2 ≤ (l.getD (l.length - 1) (0, 0)).2 := by
    intro d
    induction d with
    | zero =>
      intro k hk hd
      have : k = l.length - 1 := by omega
      rw [this]
    | succ d ih =>
      intro k hk hd
      by_cases hlast : k = l.length - 1
      · rw [hlast]
      · have hk1 : k + 1 < l.length := by omega
        calc (l.getD k (0, 0)).2 = (l.getD (k + 1) (0, 0)).1 := hc k hk1
          _ ≤ (l.getD (k + 1) (0, 0)).2 := ho (k + 1) hk1
          _ ≤ (l.getD (l.length - 1) (0, 0)).2 := ih (k + 1) hk1 (by omega)
  exact fun k hk => main (l.length - 1 - k) k hk (le_refl _)

/-- `find_interval` returns `none` exactly when `jd` lies outside
`[first start, last end]`, for a nonempty contiguous ordered index. -/
lemma find_interval_none_iff (l : List (ℚ × ℚ)) (jd : ℚ)
    (hne : l ≠ []) (hc : Contig l) (ho : Ordered l) :
    find_interval l jd = none ↔
      (jd < (l.getD 0 (0, 0)).1 ∨ (l.getD (l.length - 1) (0, 0)).2 < jd) := by
  have hlen : 0 < l.length := List.length_pos.mpr hne
  constructor
  · intro hnone
    by_contra hout
    push_neg at hout
    obtain ⟨i, hi⟩ := findAux_isSome l jd hc l.length 0 l.length (by omega) (le_refl _)
      hlen hout.1 hout.2
    rw [find_interval] at hnone
    rw [hnone] at hi
    cases hi
  · intro hout
    rw [find_interval]
    apply findAux_none l jd _ l.length 0 l.length (by omega) (le_refl _)
    intro k hk
    rcases hout with hlo | hhi
    · exact Or.inl (lt_of_lt_of_le hlo (first_start_le l hc ho k hk))
    · exact Or.inr (lt_of_le_of_lt (end_le_last l hc ho k hk) hhi)

/-- When the body is present, `compute` reports `outOfRange` exactly when the
interval search fails; every other path returns a result. -/
lemma compute_outOfRange_iff (r : Reader) (bodyId : Int) (b : Body) (jd : ℚ)
    (hbody : lookupBody r.bodies bodyId = some b) :
    compute r bodyId jd = .error .outOfRange ↔ find_interval r.intervals jd = none := by
  rw [compute]
  cases hfind : find_interval r.intervals jd with
  | none => simp
  | some idx =>
    simp [read_coefficients, hbody]

end Eph

lemma sum_map_const {α : Type} (l : List α) (c : ℕ) :
    (l.map fun _ => c).sum = l.length * c := by
  induction l with
  | nil => simp
  | cons a t ih => simp [ih]; ring

lemma sum_map_eq_const {α : Type} (l : List α) (f : α → ℕ) (c : ℕ)
    (h : ∀ x ∈ l, f x = c) : (l.map f).sum = l.length * c := by
  induction l with
  | nil => simp
  | cons a t ih =>
    simp only [List.map_cons, List.sum_cons, List.length_cons]
    rw [h a (by simp), ih (fun x hx => h x (by simp [hx]))]
    ring

/-- C1: the coefficient block `EphReader._read_coefficients` reads is NOT
the `3·(degree+1)`-double block the encoder writes: at the encoder's degree
7 the reader reads `3·7 = 21` doubles with stride `168 = 3·7·8` bytes, while
`spice2eph.py` writes 24-double blocks with stride `192 = 3·(7+1)·8`; for
`interval_idx = 1` the reader therefore seeks to `data_offset + 168` instead
of `data_offset + 192`. -/
theorem c1_reader_block_shape_bug :
    Eph.readerCoeffByteSize 7 = 168 ∧
    Spice2Eph.bytesPerInterval 7 = 192 ∧
    Eph.readerCoeffOffset 1000 1 7 = 1168 ∧
    ((Eph.read_coefficients Eph.c1reader 1 1).map fun cs =>
      (cs.map List.length).sum) = some 21 ∧
    21 ≠ 3 * (7 + 1) := by
  refine ⟨rfl, rfl, rfl, ?_, by decide⟩
  decide

/-- C2 counterexample: with the contiguous index `[(0,1), (1,2), (2,3)]`, a
query at the interior boundary `jd = 1` (end of interval 0, start of
interval 1) selects interval 1, not the earlier interval 0 the claim
requires. -/
theorem c2_boundary_counterexample :
    Eph.find_interval [(0, 1), (1, 2), (2, 3)] 1 = some 1 ∧ (1 : ℕ) ≠ 0 := by
  constructor
  · rw [Eph.find_interval, Eph.findAux]
    norm_num [List.getD]
  · decide

/-- C2 (amended): `_find_interval` returns the index of an interval whose
closed span `[jd_start, jd_end]` contains the queried JD — at an interior
boundary this is one of the two adjacent intervals (whichever the midpoint
probes reach first), not necessarily the earlier one. -/
theorem c2_selected_interval_contains (l : List (ℚ × ℚ)) (jd : ℚ) (i : ℕ)
    (h : Eph.find_interval l jd = some i) :
    i < l.length ∧ (l.getD i (0, 0)).1 ≤ jd ∧ jd ≤ (l.getD i (0, 0)).2 :=
  Eph.findAux_sound l jd l.length 0 l.length (by omega) (le_refl _) i h

/-- C2 witness: the amended statement at the boundary query of the
counterexample's index. -/
theorem c2_selected_interval_contains_witness :
    (1 : ℕ) < ([((0 : ℚ), (1 : ℚ)), (1, 2), (2, 3)]).length ∧
    (([((0 : ℚ), (1 : ℚ)), (1, 2), (2, 3)]).getD 1 (0, 0)).1 ≤ 1 ∧
    (1 : ℚ) ≤ (([((0 : ℚ), (1 : ℚ)), (1, 2), (2, 3)]).getD 1 (0, 0)).2 :=
  c2_selected_interval_contains [(0, 1), (1, 2), (2, 3)] 1 1
    (by rw [Eph.find_interval, Eph.findAux]; norm_num [List.getD])

/-- C9 counterexample: a 24-byte name (24 copies of byte 65, 'A') passes
through `body_name.encode('ascii')[:24].ljust(24, b'\x00')` unchanged — the
written field holds 24 name bytes and no NUL terminator at all. -/
theorem c9_no_nul_counterexample :
    Spice2Eph.nameField (List.replicate 24 65) = List.replicate 24 65 ∧
    0 ∉ Spice2Eph.nameField (List.replicate 24 65) := by
  constructor
  · decide
  · decide

/-- C9 (amended): the name field is always exactly 24 bytes — the name
truncated to 24 (not 23) bytes then NUL-padded; for names of at most 23
bytes the field is the name followed by at least one NUL, but a name of 24
bytes or more is truncated to 24 bytes with no NUL terminator. -/
theorem c9_name_field (name : List ℕ) :
    (Spice2Eph.nameField name).length = 24 ∧
    (name.length ≤ 23 →
      Spice2Eph.nameField name = name ++ List.replicate (24 - name.length) 0 ∧
      0 ∈ Spice2Eph.nameField name) := by
  constructor
  · rw [Spice2Eph.nameField]
    simp only [List.length_append, List.length_take, List.length_replicate]
    omega
  · intro hlen
    have htake : name.take 24 = name := List.take_of_length_le (by omega)
    constructor
    · rw [Spice2Eph.nameField, htake]
    · rw [Spice2Eph.nameField, htake]
      apply List.mem_append_right
      apply List.mem_replicate.mpr
      constructor
      · omega
      · rfl

/-- C9 witness: the amended statement at the one-byte name `[65]`. -/
theorem c9_name_field_witness :
    (Spice2Eph.nameField [65]).length = 24 ∧
    (Spice2Eph.nameField [65] = [65] ++ List.replicate 23 0 ∧
      0 ∈ Spice2Eph.nameField [65]) :=
  ⟨(c9_name_field [65]).1, (c9_name_field [65]).2 (by norm_num)⟩

/-- C5 counterexample: on a record carrying the standard SPK header values
ND = 2 at byte offset 8 and NI = 6 at byte offset 12 (little-endian) and an
unrelated byte 200 at offset 88, the code decodes `(little, 2, 6)` from
offsets 8/12, while the claim's readers at offsets 88/92 would decode
something else entirely — the claim's offsets are not the ones read. -/
theorem c5_offset_counterexample :
    RawSpk.detectEndianness RawSpk.c5bytes = (false, 2, 6) ∧
    RawSpk.detectEndiannessAt88 RawSpk.c5bytes ≠ RawSpk.detectEndianness RawSpk.c5bytes := by
  constructor
  · decide
  · decide

/-- C5 (amended): `read_chebyshev_intervals_raw` reads the ND/NI integer
header fields at byte offsets 8 and 12 (immediately after the 8-byte ID
word) as little-endian, and decodes them as big-endian exactly when either
little-endian value exceeds the sanity threshold 100. -/
theorem c5_endianness_detection (byte : ℕ → ℕ) :
    ((RawSpk.detectEndianness byte).1 = true ↔
      (100 < RawSpk.leInt32 byte 8 ∨ 100 < RawSpk.leInt32 byte 12)) ∧
    ((RawSpk.detectEndianness byte).1 = false →
      (RawSpk.detectEndianness byte).2 = (RawSpk.leInt32 byte 8, RawSpk.leInt32 byte 12)) ∧
    ((RawSpk.detectEndianness byte).1 = true →
      (RawSpk.detectEndianness byte).2 = (RawSpk.beInt32 byte 8, RawSpk.beInt32 byte 12)) := by
  rw [RawSpk.detectEndianness]
  by_cases h : 100 < RawSpk.leInt32 byte 8 ∨ 100 < RawSpk.leInt32 byte 12
  · rw [if_pos h]
    exact ⟨by simp [h], by simp, by simp⟩
  · rw [if_neg h]
    exact ⟨by simp [h], by simp, by simp⟩

/-- C5 witness: the amended statement on the concrete record `c5bytes`,
whose little-endian ND/NI pass the threshold. -/
theorem c5_endianness_detection_witness :
    (RawSpk.detectEndianness RawSpk.c5bytes).1 = false ∧
    (RawSpk.detectEndianness RawSpk.c5bytes).2 =
      (RawSpk.leInt32 RawSpk.c5bytes 8, RawSpk.leInt32 RawSpk.c5bytes 12) :=
  ⟨by decide, (c5_endianness_detection RawSpk.c5bytes).2.1 (by decide)⟩

/-- C6: for a container written by `_write_eph_file` with `B` bodies, `I`
intervals and degree `d` (every body having `I` blocks of `d+1` coefficients
per component), the `k`-th body in body-id-sorted order is written with
`data_offset = 512 + B·36 + I·16 + k·I·3·(d+1)·8`, and the total number of
bytes written is `512 + 36·B + 16·I + 24·(d+1)·I·B`. -/
theorem c6_layout (inp : Spice2Eph.EphInput) (d B I k : ℕ)
    (hd : inp.coeffDegree = d) (hB : Spice2Eph.numBodies inp = B)
    (hI : Spice2Eph.numIntervals inp = I)
    (hblocks : ∀ p ∈ inp.allCoeffs, p.2.length = I ∧
      ∀ b ∈ p.2, b.x.length = d + 1 ∧ b.y.length = d + 1 ∧ b.z.length = d + 1)
    (hk : k < B) :
    ((Spice2Eph.bodyEntries inp).getD k (0, 0)).2
      = 512 + B * 36 + I * 16 + k * (I * (3 * (d + 1) * 8)) ∧
    Spice2Eph.fileSize inp = 512 + 36 * B + 16 * I + 24 * (d + 1) * I * B := by
  have hperm : List.Perm (Spice2Eph.sortedBodies inp) inp.allCoeffs :=
    List.perm_insertionSort _ _
  have hslen : (Spice2Eph.sortedBodies inp).length = B := by
    rw [Spice2Eph.sortedBodies, List.length_insertionSort]
    exact hB
  have hds : Spice2Eph.dataStart inp = 512 + B * 36 + I * 16 := by
    rw [Spice2Eph.dataStart, hB, hI]
    rfl
  constructor
  · have hlen : (Spice2Eph.bodyEntries inp).length = B := by
      rw [Spice2Eph.bodyEntries, List.length_map, List.enum_length]
      exact hslen
    have hsk : k < (Spice2Eph.sortedBodies inp).length := by omega
    rw [Spice2Eph.bodyEntries, List.getD_eq_getElem?_getD, List.getElem?_map,
      List.getElem?_enum, List.getElem?_eq_getElem hsk]
    simp only [Option.map_some', Option.getD_some]
    rw [hds, hI, hd, Spice2Eph.bytesPerInterval]
    ring
  · rw [Spice2Eph.fileSize, Spice2Eph.writeChunks]
    rw [List.sum_append, List.sum_append, List.sum_cons]
    rw [sum_map_const, sum_map_const, hslen]
    have hIlen : inp.intervals.length = I := hI
    rw [hIlen]
    have hcoeff :
        (((Spice2Eph.sortedBodies inp).map fun bc =>
          (bc.2.map Spice2Eph.blockChunks).flatten).flatten).sum
          = B * (I * (24 * (d + 1))) := by
      rw [List.sum_flatten, List.map_map]
      rw [sum_map_eq_const _ _ (I * (24 * (d + 1))) ?_, hslen]
      intro bc hbc
      have hbc' : bc ∈ inp.allCoeffs := hperm.mem_iff.mp hbc
      obtain ⟨hblen, hcomp⟩ := hblocks bc hbc'
      simp only [Function.comp_apply]
      rw [List.sum_flatten, List.map_map]
      rw [sum_map_eq_const _ _ (24 * (d + 1)) ?_, hblen]
      intro b hb
      obtain ⟨hx, hy, hz⟩ := hcomp b hb
      simp only [Function.comp_apply, Spice2Eph.blockChunks, List.sum_cons,
        List.sum_nil, hx, hy, hz]
      ring
    rw [hcoeff, Spice2Eph.HEADER_SIZE, Spice2Eph.BODY_ENTRY_SIZE,
      Spice2Eph.INTERVAL_ENTRY_SIZE]
    ring

/-- C6 witness: the layout formulas on the concrete two-body one-interval
degree-0 input, at the second sorted body (`k = 1`). -/
theorem c6_layout_witness :
    ((Spice2Eph.bodyEntries Spice2Eph.c6input).getD 1 (0, 0)).2
      = 512 + 2 * 36 + 1 * 16 + 1 * (1 * (3 * (0 + 1) * 8)) ∧
    Spice2Eph.fileSize Spice2Eph.c6input
      = 512 + 36 * 2 + 16 * 1 + 24 * (0 + 1) * 1 * 2 :=
  c6_layout Spice2Eph.c6input 0 2 1 1 rfl rfl rfl (by decide) (by norm_num)

/-- C7: for an open reader whose interval index tiles
`[start_jd, end_jd]` contiguously (first start = `start_jd`, last end =
`end_jd`) and a body present in the body table, `compute` fails with the
out-of-range error exactly when `jd < start_jd` or `jd > end_jd`; in
particular queries at exactly `start_jd` and exactly `end_jd` do not fail. -/
theorem c7_out_of_range_iff (r : Eph.Reader) (bodyId : Int) (b : Eph.Body) (jd : ℚ)
    (hne : r.intervals ≠ [])
    (hc : Eph.Contig r.intervals) (ho : Eph.Ordered r.intervals)
    (hstart : r.header.startJd = (r.intervals.getD 0 (0, 0)).1)
    (hend : r.header.endJd = (r.intervals.getD (r.intervals.length - 1) (0, 0)).2)
    (hbody : Eph.lookupBody r.bodies bodyId = some b) :
    (Eph.compute r bodyId jd = .error .outOfRange ↔
      (jd < r.header.startJd ∨ r.header.endJd < jd)) ∧
    Eph.compute r bodyId r.header.startJd ≠ .error .outOfRange ∧
    Eph.compute r bodyId r.header.endJd ≠ .error .outOfRange := by
  have hmain : ∀ q : ℚ, (Eph.compute r bodyId q = .error .outOfRange ↔
      (q < r.header.startJd ∨ r.header.endJd < q)) := by
    intro q
    rw [Eph.compute_outOfRange_iff r bodyId b q hbody,
      Eph.find_interval_none_iff r.intervals q hne hc ho, hstart, hend]
  have hlen : 0 < r.intervals.length := List.length_pos.mpr hne
  have hse : r.header.startJd ≤ r.header.endJd := by
    rw [hstart, hend]
    calc (r.intervals.getD 0 (0, 0)).1
        ≤ (r.intervals.getD 0 (0, 0)).2 := ho 0 hlen
      _ ≤ _ := Eph.end_le_last r.intervals hc ho 0 hlen
  refine ⟨hmain jd, ?_, ?_⟩
  · rw [Ne, hmain r.header.startJd]
    push_neg
    exact ⟨le_refl _, hse⟩
  · rw [Ne, hmain r.header.endJd]
    push_neg
    exact ⟨hse, le_refl _⟩

/-- C7 witness: the out-of-range characterization on the concrete
single-interval reader, with `jd = 5` outside its coverage `[0, 1]`. -/
theorem c7_out_of_range_iff_witness :
    (Eph.compute Eph.oneIntervalReader 1 5 = .error .outOfRange ↔
      ((5 : ℚ) < Eph.oneIntervalReader.header.startJd ∨
        Eph.oneIntervalReader.header.endJd < 5)) ∧
    Eph.compute Eph.oneIntervalReader 1 Eph.oneIntervalReader.header.startJd
      ≠ .error .outOfRange ∧
    Eph.compute Eph.oneIntervalReader 1 Eph.oneIntervalReader.header.endJd
      ≠ .error .outOfRange :=
  c7_out_of_range_iff Eph.oneIntervalReader 1 ⟨[], 0⟩ 5
    (by decide)
    (by intro k hk; simp [Eph.oneIntervalReader] at hk)
    (by intro k hk
        simp only [Eph.oneIntervalReader, List.length_cons, List.length_nil] at hk
        have hk0 : k = 0 := by omega
        subst hk0
        norm_num [Eph.oneIntervalReader, List.getD])
    rfl rfl rfl

/-- C10: every successful `compute` returns a dictionary whose keys are
exactly `["pos"]` with a three-component value — no code path produces a
velocity entry. -/
theorem c10_position_only (r : Eph.Reader) (bodyId : Int) (jd : ℚ)
    (res : List (String × List ℚ)) (h : Eph.compute r bodyId jd = .ok res) :
    res.map Prod.fst = ["pos"] ∧ ∀ v ∈ res.map Prod.snd, v.length = 3 := by
  rw [Eph.compute] at h
  split at h
  · cases h
  · split at h
    · cases h
    · simp only [Except.ok.injEq] at h
      subst h
      simp

/-- C10 witness: the key list of a successful query on the concrete
single-interval reader. -/
theorem c10_position_only_witness :
    ([(("pos" : String), [(0 : ℚ), 0, 0])].map Prod.fst = ["pos"]) ∧
    ∀ v ∈ ([(("pos" : String), [(0 : ℚ), 0, 0])].map Prod.snd), v.length = 3 :=
  c10_position_only Eph.oneIntervalReader 1 0 _
    (by
      have hfind : Eph.find_interval [((0 : ℚ), (1 : ℚ))] 0 = some 0 := by
        rw [Eph.find_interval, Eph.findAux]
        norm_num [List.getD]
      rw [Eph.compute]
      have hiv : Eph.oneIntervalReader.intervals = [((0 : ℚ), (1 : ℚ))] := rfl
      rw [hiv, hfind]
      norm_num [Eph.read_coefficients, Eph.lookupBody, Eph.oneIntervalReader,
        Eph.chebyshev_eval, List.getD])

/-- C3: the Schwarzschild term `compute_acceleration` actually computes
differs from the first-post-Newtonian correction the claim (and the
function's own docstring) states: the code scales the velocity term by
`r_dot = (r·v)/|r|` instead of the full dot product `r·v`.  At position
`(2, 0, 0)` and velocity `(1, 0, 0)` the two terms disagree. -/
theorem c3_schwarzschild_term_bug :
    Integrator.schwarzschild Integrator.c3pos Integrator.c3vel 0
      ≠ Integrator.schwarzschild_spec Integrator.c3pos Integrator.c3vel 0 := by
  have hp0 : Integrator.c3pos 0 = 2 := rfl
  have hp1 : Integrator.c3pos 1 = 0 := rfl
  have hp2 : Integrator.c3pos 2 = 0 := rfl
  have hv0 : Integrator.c3vel 0 = 1 := rfl
  have hv1 : Integrator.c3vel 1 = 0 := rfl
  have hv2 : Integrator.c3vel 2 = 0 := rfl
  have hdotpp : Integrator.dot Integrator.c3pos Integrator.c3pos = 4 := by
    rw [Integrator.dot, hp0, hp1, hp2]; norm_num
  have hnorm : Integrator.norm3 Integrator.c3pos = 2 := by
    rw [Integrator.norm3, hdotpp, show (4 : ℝ) = 2 ^ 2 by norm_num]
    exact Real.sqrt_sq (by norm_num)
  have hdotpv : Integrator.dot Integrator.c3pos Integrator.c3vel = 2 := by
    rw [Integrator.dot, hp0, hp1, hp2, hv0]; norm_num
  have hdotvv : Integrator.dot Integrator.c3vel Integrator.c3vel = 1 := by
    rw [Integrator.dot, hv0, hv1, hv2]; norm_num
  have hGM : (0 : ℝ) < Integrator.GM_SUN := by
    rw [Integrator.GM_SUN]; norm_num
  have hC : (0 : ℝ) < Integrator.C_LIGHT := by
    rw [Integrator.C_LIGHT]; norm_num
  intro h
  simp only [Integrator.schwarzschild, Integrator.schwarzschild_spec,
    hnorm, hdotpv, hdotvv] at h
  rw [hp0, hv0] at h
  have hC0 : Integrator.C_LIGHT ≠ 0 := ne_of_gt hC
  field_simp at h
  nlinarith [hGM, hC, sq_nonneg Integrator.C_LIGHT]

/-- C8 counterexample: the update both `elements_to_cartesian`
implementations iterate, `E ← M + e·sin E`, is not the Newton-Raphson
update for Kepler's equation: at `e = 1/2`, `M = E = π/3` the code's step
gives `π/3 + √3/4` while one Newton iteration gives `π/3 + √3/3`. -/
theorem c8_not_newton_counterexample :
    Integrator.keplerStep (1 / 2) (Real.pi / 3) (Real.pi / 3)
      ≠ Integrator.newtonStep (1 / 2) (Real.pi / 3) (Real.pi / 3) := by
  rw [Integrator.keplerStep, Integrator.newtonStep,
    Real.sin_pi_div_three, Real.cos_pi_div_three]
  intro h
  have h3 : 0 < Real.sqrt 3 := Real.sqrt_pos.mpr (by norm_num)
  field_simp at h
  nlinarith [h3]

/-- C8 (amended): both integrators solve Kepler's equation by fixed-point
iteration — exactly ten applications of `E ← M + e·sin E` starting from
`E = M`, with no Newton step and no convergence test; a value is a fixed
point of that update exactly when it solves Kepler's equation
`E − e·sin E = M`. -/
theorem c8_fixed_point_kepler (e M E : ℝ) :
    (Integrator.keplerStep e M E = E ↔ E - e * Real.sin E = M) ∧
    Integrator.solveKepler e M
      = Integrator.keplerStep e M ((Integrator.keplerStep e M)^[9] M) := by
  constructor
  · rw [Integrator.keplerStep]
    constructor
    · intro h; linarith
    · intro h; linarith
  · rw [Integrator.solveKepler, show (10 : ℕ) = 9 + 1 from rfl,
      Function.iterate_succ_apply']

/-- C4 counterexample: an interval (`[0, 2]`) where the sample source fails
at four of the eight Chebyshev nodes (including node 7) but succeeds with
position 1 km at the other four: the failed samples degrade to zero
individually, and the fitted block is NOT the zero vector — its constant
coefficient is `1/(2·AU)` ≠ 0. -/
theorem c4_zero_block_counterexample :
    Refit.c4sample (Refit.jdSample 0 2 7) = none ∧
    Refit.extractBlock Refit.c4sample 0 2 0 0 = 1 / (2 * Refit.AU_KM) ∧
    (1 : ℝ) / (2 * Refit.AU_KM) ≠ 0 := by
  have hpi : (0 : ℝ) < Real.pi := Real.pi_pos
  have hnode : ∀ k : ℕ, Refit.jdSample 0 2 k
      = 1 + Real.cos (Real.pi * (2 * (k : ℝ) + 1) / 16) := by
    intro k
    rw [Refit.jdSample, Refit.chebNode, Refit.nSamples]
    norm_num
  have hcospos : ∀ k : ℕ, k < 4 → 0 < Real.cos (Real.pi * (2 * (k : ℝ) + 1) / 16) := by
    intro k hk
    apply Real.cos_pos_of_mem_Ioo
    constructor
    · have h0 : (0 : ℝ) < Real.pi * (2 * (k : ℝ) + 1) / 16 := by positivity
      nlinarith [hpi]
    · have hk7 : (2 * (k : ℝ) + 1) ≤ 7 := by
        have : (k : ℝ) ≤ 3 := by exact_mod_cast Nat.lt_succ_iff.mp hk
        linarith
      rw [div_lt_iff (by norm_num : (0 : ℝ) < 16)]
      nlinarith [hpi]
  have hcosneg : ∀ k : ℕ, 4 ≤ k → k < 8 →
      Real.cos (Real.pi * (2 * (k : ℝ) + 1) / 16) < 0 := by
    intro k hk4 hk8
    apply Real.cos_neg_of_pi_div_two_lt_of_lt
    · have h9 : (9 : ℝ) ≤ 2 * (k : ℝ) + 1 := by
        have : (4 : ℝ) ≤ (k : ℝ) := by exact_mod_cast hk4
        linarith
      rw [lt_div_iff (by norm_num : (0 : ℝ) < 16)]
      nlinarith [hpi]
    · have h15 : 2 * (k : ℝ) + 1 ≤ 15 := by
        have : (k : ℝ) ≤ 7 := by exact_mod_cast Nat.lt_succ_iff.mp hk8
        linarith
      rw [div_lt_iff (by norm_num : (0 : ℝ) < 16)]
      nlinarith [hpi]
  have hsome : ∀ k : ℕ, k < 4 →
      Refit.c4sample (Refit.jdSample 0 2 k) = some (fun _ => 1) := by
    intro k hk
    rw [hnode k, Refit.c4sample, if_pos]
    linarith [hcospos k hk]
  have hnone : ∀ k : ℕ, 4 ≤ k → k < 8 →
      Refit.c4sample (Refit.jdSample 0 2 k) = none := by
    intro k hk4 hk8
    rw [hnode k, Refit.c4sample, if_neg]
    rw [not_le]
    linarith [hcosneg k hk4 hk8]
  have hAU : (0 : ℝ) < Refit.AU_KM := by rw [Refit.AU_KM]; norm_num
  refine ⟨hnone 7 (by norm_num) (by norm_num), ?_, by positivity⟩
  rw [Refit.extractBlock, Refit.chebfit, Refit.nSamples]
  have hterm : ∀ k : ℕ,
      Refit.samplePos Refit.c4sample (Refit.jdSample 0 2 k) 0 / Refit.AU_KM *
        Real.cos (Real.pi * ((0 : ℕ) : ℝ) * (2 * (k : ℝ) + 1) / (2 * ((8 : ℕ) : ℝ)))
      = Refit.samplePos Refit.c4sample (Refit.jdSample 0 2 k) 0 / Refit.AU_KM := by
    intro k
    norm_num
  rw [Finset.sum_range_succ, Finset.sum_range_succ, Finset.sum_range_succ,
    Finset.sum_range_succ, Finset.sum_range_succ, Finset.sum_range_succ,
    Finset.sum_range_succ, Finset.sum_range_succ, Finset.sum_range_zero]
  rw [hterm 0, hterm 1, hterm 2, hterm 3, hterm 4, hterm 5, hterm 6, hterm 7]
  rw [Refit.samplePos, Refit.samplePos, Refit.samplePos, Refit.samplePos,
    Refit.samplePos, Refit.samplePos, Refit.samplePos, Refit.samplePos]
  rw [hsome 0 (by norm_num), hsome 1 (by norm_num), hsome 2 (by norm_num),
    hsome 3 (by norm_num), hnone 4 (by norm_num) (by norm_num),
    hnone 5 (by norm_num) (by norm_num), hnone 6 (by norm_num) (by norm_num),
    hnone 7 (by norm_num) (by norm_num)]
  simp only [Option.getD_some, Option.getD_none, if_pos]
  norm_num
  field_simp
  ring

/-- C4 (amended): a failed sample call contributes a zero position for that
sample only; the `(body, interval)` block is the Chebyshev fit of the
partially-zeroed samples and is the zero vector only when every sample of
the interval fails; no failure count is recorded, and every interval is
still processed (one block per interval). -/
theorem c4_per_sample_zero (sample : ℝ → Option (Fin 3 → ℝ))
    (intervals : List (ℝ × ℝ)) :
    (Refit.extract_coefficients sample intervals).length = intervals.length ∧
    (∀ a b : ℝ, (∀ k, k < Refit.nSamples → sample (Refit.jdSample a b k) = none) →
      ∀ c j, Refit.extractBlock sample a b c j = 0) := by
  constructor
  · rw [Refit.extract_coefficients, List.length_map]
  · intro a b hall c j
    rw [Refit.extractBlock, Refit.chebfit]
    have hs : (∑ k in Finset.range Refit.nSamples,
        Refit.samplePos sample (Refit.jdSample a b k) c / Refit.AU_KM *
          Real.cos (Real.pi * (j : ℝ) * (2 * (k : ℝ) + 1) / (2 * ((Refit.nSamples : ℕ) : ℝ))))
        = 0 := by
      apply Finset.sum_eq_zero
      intro k hk
      rw [Refit.samplePos, hall k (Finset.mem_range.mp hk)]
      simp
    rw [hs, mul_zero]

/-- C4 witness: the amended statement on the everywhere-failing sample
source over a single interval. -/
theorem c4_per_sample_zero_witness :
    (Refit.extract_coefficients (fun _ => none) [((0 : ℝ), 2)]).length
      = [((0 : ℝ), 2)].length ∧
    Refit.extractBlock (fun _ => none) 0 2 0 0 = 0 :=
  ⟨(c4_per_sample_zero (fun _ => none) [((0 : ℝ), 2)]).1,
    (c4_per_sample_zero (fun _ => none) [((0 : ℝ), 2)]).2 0 2 (fun _ _ => rfl) 0 0⟩
